import Mathlib

/-!
Verification development for the local-copilot server (`server.js`).

The definitions below are a shallow embedding of the server's
change-proposal-and-selective-application pipeline: the workspace path guard,
the patch engine helpers (`makeUnifiedDiff`, `splitDiffIntoHunks`,
`applySelectedHunks` together with the `diff` npm library operations they call),
the JSON block parser with its lightweight repair, the `/assistant` proposal
builder and the `/assistant/apply` coordinator.  Strings are manipulated
through their underlying character lists with structural recursion so that
every definition evaluates inside the kernel.
-/

namespace Copilot

/-! ### Character-list string utilities -/

/-- Split a character list on a separator character.  The empty list yields
one empty field, mirroring JavaScript `"".split(sep) = [""]`. -/
def splitCharsOn (sep : Char) : List Char → List (List Char)
  | [] => [[]]
  | c :: cs =>
    match splitCharsOn sep cs with
    | [] => if c = sep then [[], []] else [[c]]
    | f :: fs => if c = sep then [] :: f :: fs else (c :: f) :: fs

/-- Split a string on a separator character, JavaScript style. -/
def jsSplit (s : String) (sep : Char) : List String :=
  (splitCharsOn sep s.data).map String.mk

/-- Join a list of strings with a separator string, JavaScript `Array.join`. -/
def jsJoin (sep : String) : List String → String
  | [] => ""
  | [x] => x
  | x :: xs => x ++ sep ++ jsJoin sep xs

/-- Boolean string-prefix test, modelling JavaScript
`String.prototype.startsWith`. -/
def jsStartsWith (s pre : String) : Bool :=
  pre.data.isPrefixOf s.data

/-! ### POSIX path model (`path.normalize` / `path.resolve` / `path.dirname`)

Node's `path` module (posix flavour) is modelled on `/`-separated segment
lists: `normalizeString` resolves `.` and `..` segments exactly as Node's
`normalizeString` does (with `allowAboveRoot` keeping leading `..` segments
of relative paths). -/

/-- Node `normalizeString`: process `/`-separated segments, dropping empty
segments and `.`, resolving `..` against the segment stack.  `allowAboveRoot`
keeps unmatched `..` segments (used for relative paths). -/
def normalizeSegs (allowAboveRoot : Bool) : List String → List String → List String
  | acc, [] => acc.reverse
  | acc, seg :: rest =>
    if seg = "" ∨ seg = "." then normalizeSegs allowAboveRoot acc rest
    else if seg = ".." then
      match acc with
      | top :: acc' =>
        if top = ".." then normalizeSegs allowAboveRoot (".." :: acc) rest
        else normalizeSegs allowAboveRoot acc' rest
      | [] =>
        if allowAboveRoot then normalizeSegs allowAboveRoot [".."] rest
        else normalizeSegs allowAboveRoot [] rest
    else normalizeSegs allowAboveRoot (seg :: acc) rest

/-- Model of posix `path.normalize`. -/
def pathNormalize (p : String) : String :=
  if p = "" then "."
  else
    let isAbsolute := jsStartsWith p "/"
    let trailingSep := p.data.getLast? = some '/'
    let segs := normalizeSegs (!isAbsolute) [] (jsSplit p '/')
    let body := jsJoin "/" segs
    if body = "" then
      if isAbsolute then "/" else if trailingSep then "./" else "."
    else
      let body := if trailingSep then body ++ "/" else body
      if isAbsolute then "/" ++ body else body

/-- Model of posix `path.resolve(root, target)` for the two-argument call in
`resolveWorkspacePath`.  In the server `root` is `WORKSPACE_ROOT`, which is
always absolute, so the `process.cwd()` fallback of Node's `resolve` is never
reached; for a non-absolute `root` this model normalizes the combined path
without prepending a working directory. -/
def pathResolve2 (root target : String) : String :=
  let combined :=
    if target ≠ "" ∧ jsStartsWith target "/" then target ++ "/"
    else if target = "" then root ++ "/"
    else root ++ "/" ++ target ++ "/"
  let segs := normalizeSegs false [] (jsSplit combined '/')
  "/" ++ jsJoin "/" segs

/-- Model of posix `path.dirname`. -/
def pathDirname (p : String) : String :=
  let segs := splitCharsOn '/' p.data
  match segs.dropLast with
  | [] => "."
  | [[]] => "/"
  | parts => jsJoin "/" (parts.map String.mk)

/-! ### Workspace Guard (`resolveWorkspacePath`) -/

/-- Model of `resolveWorkspacePath(rel)` on a string argument: normalize the
relative path, resolve it against the workspace root, and reject the result
unless the workspace root is a string prefix of it (`resolved.startsWith(
WORKSPACE_ROOT)`); `Except.error` models the thrown
`'Path outside workspace forbidden'`. -/
def resolveWorkspacePath (root rel : String) : Except String String :=
  let target := pathNormalize rel
  let resolved := pathResolve2 root target
  if jsStartsWith resolved root then Except.ok resolved
  else Except.error "Path outside workspace forbidden"

/-- A resolved absolute path lies under the workspace root when it is the root
itself or extends the root past a `/` separator.  This is the spec's notion of
a path "inside the workspace root". -/
def isUnderRoot (root p : String) : Bool :=
  p = root || jsStartsWith p (root ++ "/")

/-! ### JSON value model

`body-parser` request bodies, model output blocks and `JSON.parse` results are
JSON values.  JavaScript `undefined` (absent field) is collapsed into `null`:
the server only ever distinguishes them through `??` and truthiness, which
treat both alike. -/

inductive Json where
  | null
  | bool (b : Bool)
  | num (lexeme : String)
  | str (s : String)
  | arr (elts : List Json)
  | obj (fields : List (String × Json))
deriving Repr

/-- Property read `j.k`: object field lookup with JavaScript overwrite
semantics (the last duplicate key wins); any miss or non-object read yields
`null` (collapsing JavaScript `undefined`). -/
def Json.field (j : Json) (k : String) : Json :=
  match j with
  | .obj fields => ((fields.reverse).lookup k).getD Json.null
  | _ => Json.null

/-- A JSON number lexeme denotes zero when its mantissa (sign, dot and
exponent stripped) is all zero digits. -/
def numIsZero (lexeme : String) : Bool :=
  (lexeme.data.takeWhile (fun c => c ≠ 'e' ∧ c ≠ 'E')).all
    (fun c => c = '0' ∨ c = '-' ∨ c = '.')

/-- JavaScript truthiness of a JSON value (`undefined`/`null`, `false`, `0`,
`NaN` and `""` are falsy; all objects and arrays are truthy). -/
def Json.truthy : Json → Bool
  | .null => false
  | .bool b => b
  | .num s => !(numIsZero s)
  | .str s => !(s = "")
  | .arr _ => true
  | .obj _ => true

mutual

/-- JavaScript string coercion as used by `Array.prototype.join` on an
element: `null`/`undefined` become the empty string, arrays join recursively
with commas, plain objects print as `[object Object]`. -/
def Json.joinString : Json → String
  | .null => ""
  | .bool b => if b then "true" else "false"
  | .num s => s
  | .str s => s
  | .arr xs => jsJoin "," (Json.joinStringList xs)
  | .obj _ => "[object Object]"

/-- Pointwise `Json.joinString` over a list of elements. -/
def Json.joinStringList : List Json → List String
  | [] => []
  | x :: xs => Json.joinString x :: Json.joinStringList xs

end

/-! ### Model of `JSON.parse`

A strict fuel-driven recursive-descent parser for the JSON grammar
(`parseJsonValue fuel` decrements fuel at every call, so structural recursion
suffices).  `none` models a thrown `SyntaxError`. -/

/-- Skip JSON whitespace (space, tab, line feed, carriage return). -/
def skipJsonWs : List Char → List Char
  | c :: cs =>
    if c = ' ' ∨ c = '\t' ∨ c = '\n' ∨ c = '\r' then skipJsonWs cs else c :: cs
  | [] => []

/-- Fuel-driven worker for `parseJsonStringBody`; every step consumes at least
one input character, so fuel equal to the input length suffices. -/
def parseJsonStringGo : Nat → List Char → Option (String × List Char)
  | 0, _ => none
  | _, [] => none
  | fuel + 1, c :: cs =>
    if c = '"' then some ("", cs)
    else if c = '\\' then
      match cs with
      | [] => none
      | e :: cs' =>
        let dec : Option (Char × List Char) :=
          if e = '"' then some ('"', cs')
          else if e = '\\' then some ('\\', cs')
          else if e = '/' then some ('/', cs')
          else if e = 'b' then some ('\x08', cs')
          else if e = 'f' then some ('\x0c', cs')
          else if e = 'n' then some ('\n', cs')
          else if e = 'r' then some ('\r', cs')
          else if e = 't' then some ('\t', cs')
          else if e = 'u' then
            match cs' with
            | h1 :: h2 :: h3 :: h4 :: cs'' =>
              let hex? (h : Char) : Option Nat :=
                if '0' ≤ h ∧ h ≤ '9' then some (h.toNat - '0'.toNat)
                else if 'a' ≤ h ∧ h ≤ 'f' then some (h.toNat - 'a'.toNat + 10)
                else if 'A' ≤ h ∧ h ≤ 'F' then some (h.toNat - 'A'.toNat + 10)
                else none
              match hex? h1, hex? h2, hex? h3, hex? h4 with
              | some a, some b, some c, some d =>
                some (Char.ofNat (((a * 16 + b) * 16 + c) * 16 + d), cs'')
              | _, _, _, _ => none
            | _ => none
          else none
        match dec with
        | some (ch, rest) =>
          match parseJsonStringGo fuel rest with
          | some (s, rest') => some (String.mk (ch :: s.data), rest')
          | none => none
        | none => none
    else
      match parseJsonStringGo fuel cs with
      | some (s, rest) => some (String.mk (c :: s.data), rest)
      | none => none

/-- Parse the body of a JSON string literal after its opening quote, decoding
escape sequences; returns the decoded text and the remaining input. -/
def parseJsonStringBody (cs : List Char) : Option (String × List Char) :=
  parseJsonStringGo cs.length cs

/-- Parse a JSON number lexeme (`-?(0|[1-9][0-9]*)(\.[0-9]+)?([eE][+-]?[0-9]+)?`),
returning the matched lexeme and the remaining input. -/
def parseJsonNumber (cs : List Char) : Option (String × List Char) :=
  let signed : List Char × List Char :=
    match cs with
    | '-' :: rest => (['-'], rest)
    | _ => ([], cs)
  let (sign, afterSign) := signed
  let intPart : Option (List Char × List Char) :=
    match afterSign with
    | '0' :: rest => some (['0'], rest)
    | c :: rest =>
      if '1' ≤ c ∧ c ≤ '9' then
        let digs := rest.takeWhile Char.isDigit
        some (c :: digs, rest.dropWhile Char.isDigit)
      else none
    | [] => none
  match intPart with
  | none => none
  | some (ip, afterInt) =>
    let fracPart : Option (List Char × List Char) :=
      match afterInt with
      | '.' :: rest =>
        let digs := rest.takeWhile Char.isDigit
        if digs = [] then none
        else some ('.' :: digs, rest.dropWhile Char.isDigit)
      | _ => some ([], afterInt)
    match fracPart with
    | none => none
    | some (fp, afterFrac) =>
      let expPart : Option (List Char × List Char) :=
        match afterFrac with
        | e :: rest =>
          if e = 'e' ∨ e = 'E' then
            let signedExp : List Char × List Char :=
              match rest with
              | s :: rest' => if s = '+' ∨ s = '-' then ([s], rest') else ([], rest)
              | [] => ([], rest)
            let (es, afterEs) := signedExp
            let digs := afterEs.takeWhile Char.isDigit
            if digs = [] then none
            else some (e :: (es ++ digs), afterEs.dropWhile Char.isDigit)
          else some ([], afterFrac)
        | [] => some ([], afterFrac)
      match expPart with
      | none => none
      | some (ep, rest) => some (String.mk (sign ++ ip ++ fp ++ ep), rest)

mutual

/-- Parse one JSON value. -/
def parseJsonValue : Nat → List Char → Option (Json × List Char)
  | 0, _ => none
  | fuel + 1, cs =>
    match skipJsonWs cs with
    | [] => none
    | c :: rest =>
      if c = '{' then parseJsonObject fuel rest true
      else if c = '[' then parseJsonArray fuel rest true
      else if c = '"' then
        match parseJsonStringBody rest with
        | some (s, rest') => some (Json.str s, rest')
        | none => none
      else if c = 't' then
        match rest with
        | 'r' :: 'u' :: 'e' :: rest' => some (Json.bool true, rest')
        | _ => none
      else if c = 'f' then
        match rest with
        | 'a' :: 'l' :: 's' :: 'e' :: rest' => some (Json.bool false, rest')
        | _ => none
      else if c = 'n' then
        match rest with
        | 'u' :: 'l' :: 'l' :: rest' => some (Json.null, rest')
        | _ => none
      else
        match parseJsonNumber (c :: rest) with
        | some (lex, rest') => some (Json.num lex, rest')
        | none => none

/-- Parse the members of a JSON object after `{` (`first` marks that no member
has been consumed yet). -/
def parseJsonObject : Nat → List Char → Bool → Option (Json × List Char)
  | 0, _, _ => none
  | fuel + 1, cs, first =>
    match skipJsonWs cs with
    | [] => none
    | c :: rest =>
      if c = '}' ∧ first then some (Json.obj [], rest)
      else
        match parseJsonMembers fuel (c :: rest) with
        | some (fields, rest') => some (Json.obj fields, rest')
        | none => none

/-- Parse a non-empty comma-separated member list of a JSON object, including
the closing `}`. -/
def parseJsonMembers : Nat → List Char → Option (List (String × Json) × List Char)
  | 0, _ => none
  | fuel + 1, cs =>
    match skipJsonWs cs with
    | '"' :: rest =>
      match parseJsonStringBody rest with
      | some (k, rest') =>
        match skipJsonWs rest' with
        | ':' :: rest'' =>
          match parseJsonValue fuel rest'' with
          | some (v, rest3) =>
            match skipJsonWs rest3 with
            | ',' :: rest4 =>
              match parseJsonMembers fuel rest4 with
              | some (fields, rest5) => some ((k, v) :: fields, rest5)
              | none => none
            | '}' :: rest4 => some ([(k, v)], rest4)
            | _ => none
          | none => none
        | _ => none
      | none => none
    | _ => none

/-- Parse the elements of a JSON array after `[` (`first` marks that no
element has been consumed yet). -/
def parseJsonArray : Nat → List Char → Bool → Option (Json × List Char)
  | 0, _, _ => none
  | fuel + 1, cs, first =>
    match skipJsonWs cs with
    | [] => none
    | c :: rest =>
      if c = ']' ∧ first then some (Json.arr [], rest)
      else
        match parseJsonElements fuel (c :: rest) with
        | some (elts, rest') => some (Json.arr elts, rest')
        | none => none

/-- Parse a non-empty comma-separated element list of a JSON array, including
the closing `]`. -/
def parseJsonElements : Nat → List Char → Option (List Json × List Char)
  | 0, _ => none
  | fuel + 1, cs =>
    match parseJsonValue fuel cs with
    | some (v, rest) =>
      match skipJsonWs rest with
      | ',' :: rest' =>
        match parseJsonElements fuel rest' with
        | some (elts, rest'') => some (v :: elts, rest'')
        | none => none
      | ']' :: rest' => some ([v], rest')
      | _ => none
    | none => none

end

/-- Model of `JSON.parse`: parse one JSON value and require only whitespace
after it; `none` models a thrown `SyntaxError`. -/
def jsonParse (s : String) : Option Json :=
  match parseJsonValue (4 * s.data.length + 16) s.data with
  | some (v, rest) => if skipJsonWs rest = [] then some v else none
  | none => none

/-! ### JSON parsing and repair (`lightweightRepair`, `tryParseJSONBlock`) -/

/-- The backtick character (code point 96). -/
def fenceChar : Char := Char.ofNat 96

/-- Character class of the JavaScript regex `\s`, restricted to its ASCII
members (the inputs under study contain no exotic Unicode whitespace). -/
def isJsWs (c : Char) : Bool :=
  c = ' ' ∨ c = '\t' ∨ c = '\n' ∨ c = '\r' ∨ c = '\x0b' ∨ c = '\x0c'

/-- Left-to-right global scan of `replace(/(three backticks)(?:json)?\n?/g, '')`:
drop every fence marker, an optional `json` tag and an optional newline after
it.  Each step consumes at least one character, so fuel equal to the input
length suffices. -/
def stripFencesGo : Nat → List Char → List Char
  | 0, cs => cs
  | _ + 1, [] => []
  | fuel + 1, c :: rest =>
    if c = fenceChar then
      match rest with
      | c2 :: c3 :: rest' =>
        if c2 = fenceChar ∧ c3 = fenceChar then
          let rest1 :=
            match rest' with
            | 'j' :: 's' :: 'o' :: 'n' :: r => r
            | _ => rest'
          let rest2 :=
            match rest1 with
            | '\n' :: r => r
            | _ => rest1
          stripFencesGo fuel rest2
        else c :: stripFencesGo fuel rest
      | _ => c :: stripFencesGo fuel rest
    else c :: stripFencesGo fuel rest

/-- The `replace(/(three backticks)$/g, '')` pass: drop a trailing fence. -/
def stripTrailingFence (cs : List Char) : List Char :=
  match cs.reverse with
  | a :: b :: c :: rest =>
    if a = fenceChar ∧ b = fenceChar ∧ c = fenceChar then rest.reverse else cs
  | _ => cs

/-- Index of the first occurrence of a character (JavaScript `indexOf`),
`none` for `-1`. -/
def firstIndexOf (c : Char) (cs : List Char) : Option Nat :=
  cs.findIdx? (fun x => x = c)

/-- Index of the last occurrence of a character (JavaScript `lastIndexOf`). -/
def lastIndexOf (c : Char) (cs : List Char) : Option Nat :=
  match firstIndexOf c cs.reverse with
  | some i => some (cs.length - 1 - i)
  | none => none

/-- Left-to-right global scan of `replace(/,\s*([}\]])/g, '$1')`: a comma
followed by whitespace and a closing brace or bracket is replaced by that
closer. -/
def stripTrailingCommasGo : Nat → List Char → List Char
  | 0, cs => cs
  | _ + 1, [] => []
  | fuel + 1, c :: rest =>
    if c = ',' then
      match rest.dropWhile isJsWs with
      | b :: rest' =>
        if b = '}' ∨ b = ']' then b :: stripTrailingCommasGo fuel rest'
        else c :: stripTrailingCommasGo fuel rest
      | [] => c :: stripTrailingCommasGo fuel rest
    else c :: stripTrailingCommasGo fuel rest

/-- Model of `lightweightRepair(text)`: strip code fences, slice from the
first `{` to the last `}` when both exist in that order, remove trailing
commas before closers, and append close braces to balance unmatched opens. -/
def lightweightRepair (text : String) : String :=
  let block := stripFencesGo text.data.length text.data
  let block := stripTrailingFence block
  let block :=
    match firstIndexOf '{' block, lastIndexOf '}' block with
    | some first, some last =>
      if last > first then (block.take (last + 1)).drop first else block
    | _, _ => block
  let block := stripTrailingCommasGo block.length block
  let opens := block.countP (fun c => c = '{')
  let closes := block.countP (fun c => c = '}')
  let block := if opens > closes then block ++ List.replicate (opens - closes) '}' else block
  String.mk block

/-- Model of `tryParseJSONBlock(text)`: `JSON.parse` of the repaired text,
with the catch-all returning `null` modelled as `none`. -/
def tryParseJSONBlock (text : String) : Option Json :=
  jsonParse (lightweightRepair text)

/-! ### Workspace filesystem model

Modelled from the spec: the filesystem collaborator of §6 (`read`, `write`,
`mkdir`, `remove` after Workspace Guard resolution).  The state is a flat map
from resolved absolute paths to file contents plus a set of directory paths;
directory bookkeeping is tracked at the path itself (ancestor directories are
not separately materialized).  `Except.error` carries the error code used in
thrown filesystem error messages. -/

structure FS where
  files : List (String × String)
  dirs : List String
deriving Repr

/-- Whether a path holds a regular file. -/
def FS.isFile (fs : FS) (p : String) : Bool :=
  (fs.files.lookup p).isSome

/-- Whether a path holds a directory. -/
def FS.isDir (fs : FS) (p : String) : Bool :=
  fs.dirs.contains p

/-- Modelled from the spec: `read(path) -> bytes | NotFound`
(`fs.readFile(path, 'utf-8')`); reading a directory or a missing path throws. -/
def FS.readFile (fs : FS) (p : String) : Except String String :=
  if fs.isDir p then Except.error "EISDIR: illegal operation on a directory, read"
  else
    match fs.files.lookup p with
    | some c => Except.ok c
    | none => Except.error "ENOENT: no such file or directory"

/-- Insert or overwrite an association-list binding. -/
def setAssoc (k v : String) : List (String × String) → List (String × String)
  | [] => [(k, v)]
  | (k', v') :: rest => if k' = k then (k, v) :: rest else (k', v') :: setAssoc k v rest

/-- Modelled from the spec: `write(path, bytes)` (`fs.writeFile`); writing
over a directory throws. -/
def FS.writeFile (fs : FS) (p content : String) : Except String FS :=
  if fs.isDir p then Except.error "EISDIR: illegal operation on a directory, open"
  else Except.ok { fs with files := setAssoc p content fs.files }

/-- Modelled from the spec: `mkdir(path, recursive)` (`fs.mkdir` with
`recursive: true`); idempotent, but a regular file at the path throws. -/
def FS.mkdirRec (fs : FS) (p : String) : Except String FS :=
  if fs.isFile p then Except.error "EEXIST: file already exists, mkdir"
  else if fs.isDir p then Except.ok fs
  else Except.ok { fs with dirs := p :: fs.dirs }

/-- Modelled from the spec: `remove(path, recursive)` (`fs.rm` with
`recursive: true, force: true`); removes the path and everything below it,
tolerating absence. -/
def FS.rmRec (fs : FS) (p : String) : FS :=
  { files := fs.files.filter
      (fun kv => !(kv.1 = p || jsStartsWith kv.1 (p ++ "/"))),
    dirs := fs.dirs.filter
      (fun d => !(d = p || jsStartsWith d (p ++ "/"))) }

/-- Workspace Guard applied to a JSON field value: a falsy path is coerced to
the empty string by `rel || ''`, a truthy non-string makes `path.normalize`
throw a `TypeError`. -/
def resolveWorkspacePathJ (root : String) (rel : Json) : Except String String :=
  match (if rel.truthy then rel else Json.str "") with
  | .str s => resolveWorkspacePath root s
  | _ => Except.error "TypeError: path must be a string"

/-- Model of `getFileContentOrEmpty(relPath)`: resolve the path, treat a
failed `stat` (missing path) or a directory as the empty string, otherwise
read the file; every failure path is caught and yields the empty string. -/
def getFileContentOrEmpty (root : String) (fs : FS) (relPath : Json) : String :=
  match resolveWorkspacePathJ root relPath with
  | .error _ => ""
  | .ok resolved =>
    if fs.isDir resolved then ""
    else
      match fs.files.lookup resolved with
      | some content => content
      | none => ""

/-! ### Model of the `diff` npm library: patch parsing

`parsePatch` (non-strict mode, as the server calls it) is modelled on the
line list of the patch text.  A hunk header that does not match the unified
hunk-header pattern `@@ -a[,b] +c[,d] @@` leaves the start positions as
JavaScript `NaN`, modelled by `none`; the line counts default to `1` as in
the library. -/

/-- One parsed hunk.  `oldStart`/`newStart` are `none` when the header did not
match the hunk-header pattern (JavaScript `NaN`). -/
structure ParsedHunk where
  oldStart : Option Int
  oldLines : Nat
  newStart : Option Int
  newLines : Nat
  lines : List String
deriving Repr

/-- One parsed file patch (only the fields the server reads). -/
structure ParsedPatch where
  oldFileName : Option String
  newFileName : Option String
  hunks : List ParsedHunk
deriving Repr

/-- Test for a marker string followed by one whitespace character, as in the
regexes `^(---|\+\+\+|@@)\s` and `^(Index:\s|diff\s|...)`. -/
def markerWs (l : String) (marker : String) : Bool :=
  marker.data.isPrefixOf l.data &&
    match (l.data.drop marker.data.length).head? with
    | some c => isJsWs c
    | none => false

/-- The metadata loop's file-header detection `/^(---|\+\+\+|@@)\s/`. -/
def headerishLine (l : String) : Bool :=
  markerWs l "---" ∨ markerWs l "+++" ∨ markerWs l "@@"

/-- The 67-equals separator line emitted between `Index:` and the headers. -/
def equalsBar : String :=
  String.mk (List.replicate 67 '=')

/-- The hunk loop's next-file detection
`/^(Index:\s|diff\s|---\s|\+\+\+\s|=======...)/`. -/
def breakLine (l : String) : Bool :=
  markerWs l "Index:" ∨ markerWs l "diff" ∨ markerWs l "---" ∨ markerWs l "+++" ∨
    jsStartsWith l equalsBar

/-- Collapse escaped backslashes, `replace(/\\\\/g, char 92)`. -/
def collapseBackslashes : List Char → List Char
  | '\\' :: '\\' :: rest => '\\' :: collapseBackslashes rest
  | c :: rest => c :: collapseBackslashes rest
  | [] => []

/-- Model of the library's `parseFileHeader` on one line: match
`^(---|\+\+\+)\s+(.*)$`, split the captured name at the first tab, collapse
double backslashes and strip a surrounding quote pair.  Returns whether the
marker was `---` (the old side) together with the file name. -/
def parseFileHeaderLine (l : String) : Option (Bool × String) :=
  let t := l.data
  let tryMarker (m : List Char) (isOld : Bool) : Option (Bool × String) :=
    if m.isPrefixOf t then
      let rest := t.drop m.length
      match rest.head? with
      | some c =>
        if isJsWs c then
          let captured := rest.dropWhile isJsWs
          let name := captured.takeWhile (fun ch => ch ≠ '\t')
          let name := collapseBackslashes name
          let name :=
            match name with
            | '"' :: (_ :: _) =>
              if name.getLast? = some '"' then (name.drop 1).dropLast else name
            | _ => name
          some (isOld, String.mk name)
        else none
      | none => none
    else none
  match tryMarker "---".data true with
  | some r => some r
  | none => tryMarker "+++".data false

/-- Take a non-empty run of decimal digits. -/
def takeDigits (cs : List Char) : Option (Nat × List Char) :=
  let digs := cs.takeWhile Char.isDigit
  if digs = [] then none
  else some (digs.foldl (fun n c => n * 10 + (c.toNat - '0'.toNat)) 0, cs.dropWhile Char.isDigit)

/-- Match the hunk-header pattern `@@ -(\d+)(?:,(\d+))? \+(\d+)(?:,(\d+))? @@`
at the start of a line, returning the four captured numbers (counts `none`
when absent). -/
def parseHunkHeaderNums (l : String) : Option (Nat × Option Nat × Nat × Option Nat) :=
  let t := l.data
  if "@@ -".data.isPrefixOf t then
    match takeDigits (t.drop 4) with
    | none => none
    | some (os, rest) =>
      let olAndRest : Option Nat × List Char :=
        match rest with
        | ',' :: rest' =>
          match takeDigits rest' with
          | some (ol, rest'') => (some ol, rest'')
          | none => (none, rest)
        | _ => (none, rest)
      let (ol?, rest) := olAndRest
      match rest with
      | ' ' :: '+' :: rest' =>
        match takeDigits rest' with
        | none => none
        | some (ns, rest'') =>
          let nlAndRest : Option Nat × List Char :=
            match rest'' with
            | ',' :: rest3 =>
              match takeDigits rest3 with
              | some (nl, rest4) => (some nl, rest4)
              | none => (none, rest'')
            | _ => (none, rest'')
          let (nl?, restF) := nlAndRest
          if " @@".data.isPrefixOf restF then some (os, ol?, ns, nl?) else none
      | _ => none
  else none

/-- Collect the body lines of a hunk: lines starting with `+`, `-`, a space or
a backslash (an empty line that is not the final line of the patch counts as
context), stopping at a `--- / +++ / @@` next-file sequence. -/
def parseHunkBody : List String → List String × List String
  | [] => ([], [])
  | l :: rest =>
    let isNextFile :=
      jsStartsWith l "--- " &&
        (match rest with
         | l2 :: l3 :: _ => jsStartsWith l2 "+++ " && jsStartsWith l3 "@@"
         | _ => false)
    if isNextFile then ([], l :: rest)
    else
      let op : Option Char :=
        match l.data with
        | [] => if rest = [] then none else some ' '
        | c :: _ => some c
      match op with
      | some c =>
        if c = '+' ∨ c = '-' ∨ c = ' ' ∨ c = '\\' then
          let (body, rem) := parseHunkBody rest
          (l :: body, rem)
        else ([], l :: rest)
      | none => ([], l :: rest)

/-- The added-line count of a hunk body (a space or blank context line counts
on both sides). -/
def hunkAddCount (lines : List String) : Nat :=
  lines.countP (fun l => l.data.head? = some '+' ∨ l.data.head? = some ' ' ∨ l.data = [])

/-- The removed-line count of a hunk body. -/
def hunkRemoveCount (lines : List String) : Nat :=
  lines.countP (fun l => l.data.head? = some '-' ∨ l.data.head? = some ' ' ∨ l.data = [])

/-- Model of the library's `parseHunk`: parse the header line (leaving `NaN`
starts and default counts `1` on a mismatch), collect the body, and apply the
empty-block fix-ups (`newLines`/`oldLines` drop to `0` when no line of that
side was seen and the count is the default `1`). -/
def parseHunk (headerLine : String) (rest : List String) : ParsedHunk × List String :=
  let (body, rem) := parseHunkBody rest
  let add := hunkAddCount body
  let remove := hunkRemoveCount body
  let parts : Option Int × Nat × Option Int × Nat :=
    match parseHunkHeaderNums headerLine with
    | some (os, ol?, ns, nl?) => (some (os : Int), ol?.getD 1, some (ns : Int), nl?.getD 1)
    | none => (none, 1, none, 1)
  let (os?, ol, ns?, nl) := parts
  let nl := if add = 0 ∧ nl = 1 then 0 else nl
  let ol := if remove = 0 ∧ ol = 1 then 0 else ol
  ({ oldStart := os?, oldLines := ol, newStart := ns?, newLines := nl, lines := body }, rem)

/-- Skip metadata lines until a `--- / +++ / @@` header line (or the end). -/
def skipMetadata : List String → List String
  | [] => []
  | l :: rest => if headerishLine l then l :: rest else skipMetadata rest

/-- Consume one file-header line if it matches, as the library's
`parseFileHeader` does. -/
def tryFileHeader (lines : List String) : Option (Bool × String) × List String :=
  match lines with
  | [] => (none, [])
  | l :: rest =>
    match parseFileHeaderLine l with
    | some r => (some r, rest)
    | none => (none, l :: rest)

/-- The hunk loop of `parseIndex` (non-strict): collect hunks, skipping
unknown lines, until a next-file marker (fuel-driven; each step consumes at
least one line). -/
def parseHunksLoop : Nat → List String → List ParsedHunk × List String
  | 0, lines => ([], lines)
  | _ + 1, [] => ([], [])
  | fuel + 1, l :: rest =>
    if breakLine l then ([], l :: rest)
    else if jsStartsWith l "@@" then
      let (h, rem) := parseHunk l rest
      let (hs, rem') := parseHunksLoop fuel rem
      (h :: hs, rem')
    else parseHunksLoop fuel rest

/-- Assign a parsed file-header capture to the old or new side. -/
def applyFileHeader (p : ParsedPatch) : Option (Bool × String) → ParsedPatch
  | some (true, name) => { p with oldFileName := some name }
  | some (false, name) => { p with newFileName := some name }
  | none => p

/-- The library's `parseIndex`: skip metadata, take up to two file-header
lines, then parse the hunk sequence. -/
def parseIndex (lines : List String) : ParsedPatch × List String :=
  let lines := skipMetadata lines
  let (h1, lines) := tryFileHeader lines
  let (h2, lines) := tryFileHeader lines
  let p := applyFileHeader (applyFileHeader ⟨none, none, []⟩ h1) h2
  let (hunks, rest) := parseHunksLoop lines.length lines
  ({ p with hunks := hunks }, rest)

/-- Outer loop of `parsePatch` over the remaining lines. -/
def parsePatchLoop : Nat → List String → List ParsedPatch
  | 0, _ => []
  | _ + 1, [] => []
  | fuel + 1, lines =>
    let (p, rest) := parseIndex lines
    p :: parsePatchLoop fuel rest

/-- Model of the library's `parsePatch` in non-strict mode: split the patch
text into lines and repeatedly run `parseIndex`.  Every input yields at least
one (possibly hunk-less) patch, and non-strict parsing never throws. -/
def parsePatch (uniDiff : String) : List ParsedPatch :=
  let lines := jsSplit uniDiff '\n'
  parsePatchLoop lines.length lines

/-! ### Model of the `diff` npm library: patch application -/

/-- Interleave two lists, starting with the first. -/
def interleaveList : List Int → List Int → List Int
  | [], bs => bs
  | f :: fs, bs =>
    match bs with
    | [] => f :: fs
    | b :: bs' => f :: b :: interleaveList fs bs'

/-- The candidate offsets tried by the library's distance iterator: forward
offsets `+1, +2, ...` while `start + k ≤ maxLine` interleaved with backward
offsets `-1, -2, ...` while `minLine ≤ start - k`.  A `NaN` start or bound
(`none`) fails every bound check, so a `NaN` start yields no candidates. -/
def iteratorSeq (start : Option Int) (minLine : Option Int) (maxLine : Int) : List Int :=
  match start with
  | none => []
  | some s =>
    let fCount : Nat := (maxLine - s).toNat
    let bCount : Nat :=
      match minLine with
      | none => 0
      | some m => (s - m).toNat
    interleaveList ((List.range fCount).map (fun k => ((k : Int) + 1)))
      ((List.range bCount).map (fun k => -((k : Int) + 1)))

/-- Indexing with a possibly-`NaN` position: `lines[NaN]` and out-of-range
reads are `undefined` (`none`). -/
def lineAt (lines : List String) (pos : Option Int) : Option String :=
  match pos with
  | none => none
  | some i => if i < 0 then none else lines.get? i.toNat

/-- The library's `hunkFits` with the default fuzz factor `0`: every context
or removed line of the hunk must equal the source line at the running
position; a single mismatch (including any read at a `NaN` position) rejects
the fit. -/
def hunkFits (lines : List String) : List String → Option Int → Bool
  | [], _ => true
  | l :: rest, pos =>
    let op := match l.data.head? with | some c => c | none => ' '
    let content := String.mk (if l.data = [] then [] else l.data.drop 1)
    if op = ' ' ∨ op = '-' then
      match lineAt lines pos with
      | some actual =>
        if actual = content then hunkFits lines rest (pos.map (· + 1)) else false
      | none => false
    else hunkFits lines rest pos

/-- The offset-search loop of `applyPatch`: for each hunk try offset `0` and
then the distance-iterator candidates; record the accumulated offset, or fail
(`none`, modelling `return false`) when no candidate fits. -/
def searchHunks (lines : List String) : List ParsedHunk → Int → Option Int →
    Option (List (ParsedHunk × Int))
  | [], _, _ => some []
  | h :: rest, offset, minLine =>
    let maxLine : Int := (lines.length : Int) - (h.oldLines : Int)
    let toPos : Option Int := h.oldStart.map (fun os => offset + os - 1)
    let cands := 0 :: iteratorSeq toPos minLine maxLine
    match cands.find? (fun c => hunkFits lines h.lines (toPos.map (· + c))) with
    | none => none
    | some c =>
      let offset' := offset + c
      let minLine' : Option Int :=
        match h.oldStart with
        | some os => some (offset' + os + (h.oldLines : Int))
        | none => none
      match searchHunks lines rest offset' minLine' with
      | some fitted => some ((h, offset') :: fitted)
      | none => none

/-- JavaScript `splice` start-index coercion: `NaN` becomes `0`, negative
indices count from the end, and the index is clamped to the length. -/
def spliceIndex (pos : Option Int) (len : Nat) : Nat :=
  match pos with
  | none => 0
  | some i => if i < 0 then ((len : Int) + i).toNat else min i.toNat len

/-- Removal splice `lines.splice(pos, 1)`. -/
def spliceDel (lines : List String) (pos : Option Int) : List String :=
  let i := spliceIndex pos lines.length
  lines.take i ++ lines.drop (i + 1)

/-- Insertion splice `lines.splice(pos, 0, content)`. -/
def spliceIns (lines : List String) (pos : Option Int) (content : String) : List String :=
  let i := spliceIndex pos lines.length
  lines.take i ++ [content] ++ lines.drop i

/-- Apply the body of one fitted hunk: advance over context lines, remove `-`
lines, insert `+` lines, and record the end-of-file-newline flags from
backslash marker lines (which consult the raw first character of the previous
body line). -/
def applyHunkBody : List String → Option Char → List String → Option Int → Bool → Bool →
    List String × Bool × Bool
  | [], _, lines, _, rm, ad => (lines, rm, ad)
  | l :: rest, prev, lines, toPos, rm, ad =>
    let op := match l.data.head? with | some c => c | none => ' '
    let content := String.mk (if l.data = [] then [] else l.data.drop 1)
    if op = ' ' then
      applyHunkBody rest l.data.head? lines (toPos.map (· + 1)) rm ad
    else if op = '-' then
      applyHunkBody rest l.data.head? (spliceDel lines toPos) toPos rm ad
    else if op = '+' then
      applyHunkBody rest l.data.head? (spliceIns lines toPos content) (toPos.map (· + 1)) rm ad
    else if op = '\\' then
      let rm := if prev = some '+' then true else rm
      let ad := if prev = some '-' then true else ad
      applyHunkBody rest l.data.head? lines toPos rm ad
    else
      applyHunkBody rest l.data.head? lines toPos rm ad

/-- Apply every fitted hunk in order, threading the end-of-file-newline
flags. -/
def applyFittedHunks : List (ParsedHunk × Int) → List String → Bool → Bool →
    List String × Bool × Bool
  | [], lines, rm, ad => (lines, rm, ad)
  | (h, off) :: rest, lines, rm, ad =>
    let toPos : Option Int := h.newStart.map (fun ns => off + ns - 1)
    let (lines', rm', ad') := applyHunkBody h.lines none lines toPos rm ad
    applyFittedHunks rest lines' rm' ad'

/-- Drop trailing empty lines (the `removeEOFNL` loop popping falsy tails). -/
def dropTrailingEmpties (lines : List String) : List String :=
  ((lines.reverse).dropWhile (fun l => l = "")).reverse

/-- Model of the library's `applyPatch(source, patchText)`:
`Except.error` models a thrown error, `Except.ok none` models the
`false` return on a failed hunk fit, `Except.ok (some result)` the patched
text. -/
def applyPatch (source : String) (patchText : String) : Except String (Option String) :=
  match parsePatch patchText with
  | [] => Except.error "TypeError: cannot read hunks of undefined"
  | [p] =>
    let lines := jsSplit source '\n'
    match searchHunks lines p.hunks 0 (some 0) with
    | none => Except.ok none
    | some fitted =>
      let (lines', rm, ad) := applyFittedHunks fitted lines false false
      let lines'' :=
        if rm then dropTrailingEmpties lines'
        else if ad then lines' ++ [""]
        else lines'
      Except.ok (some (jsJoin "\n" lines''))
  | _ :: _ :: _ => Except.error "applyPatch only works with a single input."

/-! ### Model of the `diff` npm library: unified diff creation

`createPatch` is a line diff (removals emitted before additions, as the
library orders substitutions) assembled into unified hunks with the default
four lines of context and the end-of-file-newline markers. -/

/-- The library's line tokenizer: split into lines, each retaining its
trailing newline; the empty string yields no tokens. -/
def retainNewlines : List String → List String
  | [] => []
  | [last] => if last = "" then [] else [last]
  | f :: rest => (f ++ "\n") :: retainNewlines rest

/-- Tokenize a text into newline-retaining lines. -/
def tokenizeLines (s : String) : List String :=
  retainNewlines (jsSplit s '\n')

/-- One step of a line-level edit script. -/
inductive LineOp where
  | keep (l : String)
  | del (l : String)
  | ins (l : String)
deriving Repr

/-- Minimal edit script between two token lists, preferring deletions over
insertions on ties so substituted blocks emit removals before additions, as
the library's diff does.  Fuel-driven; `xs.length + ys.length` steps always
suffice. -/
def diffOpsGo : Nat → List String → List String → Nat × List LineOp
  | 0, xs, ys => (xs.length + ys.length, xs.map LineOp.del ++ ys.map LineOp.ins)
  | _ + 1, [], ys => (ys.length, ys.map LineOp.ins)
  | _ + 1, xs, [] => (xs.length, xs.map LineOp.del)
  | fuel + 1, x :: xs, y :: ys =>
    if x = y then
      let (c, ops) := diffOpsGo fuel xs ys
      (c, LineOp.keep x :: ops)
    else
      let (cd, od) := diffOpsGo fuel xs (y :: ys)
      let (ci, oi) := diffOpsGo fuel (x :: xs) ys
      if cd ≤ ci then (cd + 1, LineOp.del x :: od)
      else (ci + 1, LineOp.ins y :: oi)

/-- The edit script between two token lists. -/
def diffOps (xs ys : List String) : List LineOp :=
  (diffOpsGo (xs.length + ys.length + 1) xs ys).2

/-- One merged diff component: a maximal run of kept, removed or added
tokens. -/
structure DiffComp where
  added : Bool
  removed : Bool
  tokens : List String
deriving Repr

/-- Merge an edit script into maximal same-kind components. -/
def mergeOps : List LineOp → List DiffComp
  | [] => []
  | op :: rest =>
    let comps := mergeOps rest
    let entry : Bool × Bool × String :=
      match op with
      | .keep l => (false, false, l)
      | .del l => (false, true, l)
      | .ins l => (true, false, l)
    let (a, r, l) := entry
    match comps with
    | c :: cs =>
      if c.added = a ∧ c.removed = r then { c with tokens := l :: c.tokens } :: cs
      else ⟨a, r, [l]⟩ :: c :: cs
    | [] => [⟨a, r, [l]⟩]

/-- Model of the library's `diffLines`. -/
def diffLines (oldStr newStr : String) : List DiffComp :=
  mergeOps (diffOps (tokenizeLines oldStr) (tokenizeLines newStr))

/-- A component's display lines: its concatenated value with one trailing
newline removed, split on newlines (the sentinel component's preset empty
list is handled by its empty token list). -/
def compLines (tokens : List String) : List String :=
  if tokens = [] then []
  else
    let value := String.join tokens
    let value :=
      if value.data.getLast? = some '\n' then String.mk value.data.dropLast else value
    jsSplit value '\n'

/-- Prefix every context line with a space. -/
def contextify (lines : List String) : List String :=
  lines.map (fun e => " " ++ e)

/-- The last `n` elements of a list (JavaScript `slice(-n)`). -/
def lastN (n : Nat) (l : List String) : List String :=
  l.drop (l.length - n)

/-- List insertion at a clamped index (`curRange.splice(i, 0, x)`). -/
def insertAt (i : Nat) (x : String) (l : List String) : List String :=
  l.take i ++ [x] ++ l.drop i

/-- One assembled unified hunk. -/
structure HunkOut where
  oldStart : Nat
  oldLines : Nat
  newStart : Nat
  newLines : Nat
  lines : List String
deriving Repr

/-- The missing-final-newline marker line. -/
def noNlMarker : String := "\\ No newline at end of file"

/-- The hunk-assembly loop of the library's `createTwoFilesPatch` over the
component list with its appended sentinel: open a hunk at the first changed
component (pulling up to `ctx` trailing context lines from the previous
component), merge context runs of at most `2 * ctx` lines that are not at the
tail of the component list, and otherwise close the hunk with up to `ctx`
leading context lines, adding the end-of-file-newline markers on the final
hunk.  `oldRS = 0` encodes "no hunk open" exactly as the library's falsy
check does. -/
def buildHunksGo (ctx : Nat) (oldEOFNl newEOFNl oldEmpty : Bool) :
    List DiffComp → Nat → Nat → Nat → Nat → List String → Nat → Nat →
    Option (List String) → List HunkOut → List HunkOut
  | [], _, _, _, _, _, _, _, _, acc => acc.reverse
  | comp :: rest, i, total, oldRS, newRS, curRange, oldLine, newLine, prevLines, acc =>
    let lines := compLines comp.tokens
    if comp.added || comp.removed then
      let opened : Nat × Nat × List String :=
        if oldRS = 0 then
          let prevCtx :=
            match prevLines with
            | some pl => if ctx > 0 then contextify (lastN ctx pl) else []
            | none => []
          (oldLine - prevCtx.length, newLine - prevCtx.length, prevCtx)
        else (oldRS, newRS, curRange)
      let (oldRS', newRS', curRange') := opened
      let mark := if comp.added then "+" else "-"
      let curRange'' := curRange' ++ lines.map (fun e => mark ++ e)
      let oldLine' := if comp.added then oldLine else oldLine + lines.length
      let newLine' := if comp.added then newLine + lines.length else newLine
      buildHunksGo ctx oldEOFNl newEOFNl oldEmpty rest (i + 1) total oldRS' newRS'
        curRange'' oldLine' newLine' (some lines) acc
    else
      let acc' :=
        if oldRS ≠ 0 then
          if lines.length ≤ ctx * 2 ∧ i + 2 < total then none
          else some ()
        else none
      match acc' with
      | none =>
        let curRange' :=
          if oldRS ≠ 0 then curRange ++ contextify lines else curRange
        buildHunksGo ctx oldEOFNl newEOFNl oldEmpty rest (i + 1) total oldRS newRS
          curRange' (oldLine + lines.length) (newLine + lines.length) (some lines) acc
      | some _ =>
        let contextSize := min lines.length ctx
        let curRange2 := curRange ++ contextify (lines.take contextSize)
        let hOldLines := oldLine - oldRS + contextSize
        let hNewLines := newLine - newRS + contextSize
        let atEof := i + 2 ≥ total ∧ lines.length ≤ ctx
        let noNlBeforeAdds := lines.length = 0 ∧ curRange2.length > hOldLines
        let r1 :=
          if atEof ∧ ¬oldEOFNl ∧ noNlBeforeAdds ∧ ¬oldEmpty then
            insertAt hOldLines noNlMarker curRange2
          else curRange2
        let r2 :=
          if atEof ∧ ((¬oldEOFNl ∧ ¬noNlBeforeAdds) ∨ ¬newEOFNl) then r1 ++ [noNlMarker]
          else r1
        let hunk : HunkOut :=
          { oldStart := oldRS, oldLines := hOldLines, newStart := newRS,
            newLines := hNewLines, lines := r2 }
        buildHunksGo ctx oldEOFNl newEOFNl oldEmpty rest (i + 1) total 0 0 []
          (oldLine + lines.length) (newLine + lines.length) (some lines) (hunk :: acc)

/-- Whether a text ends with a newline (`/\n$/.test`). -/
def endsWithNl (s : String) : Bool :=
  s.data.getLast? = some '\n'

/-- Model of the library's `createPatch(fileName, oldStr, newStr, '', '')`
(via `createTwoFilesPatch` with equal file names, empty headers and the
default four lines of context). -/
def createPatch (fileName oldStr newStr : String) : String :=
  let comps := diffLines oldStr newStr
  let sentinel : DiffComp := ⟨false, false, []⟩
  let withSentinel := comps ++ [sentinel]
  let hunks := buildHunksGo 4 (endsWithNl oldStr) (endsWithNl newStr) (oldStr = "")
    withSentinel 0 withSentinel.length 0 0 [] 1 1 none []
  let ret :=
    ["Index: " ++ fileName, equalsBar, "--- " ++ fileName ++ "\t",
      "+++ " ++ fileName ++ "\t"] ++
    hunks.flatMap (fun h =>
      ("@@ -" ++ toString h.oldStart ++ "," ++ toString h.oldLines ++
        " +" ++ toString h.newStart ++ "," ++ toString h.newLines ++ " @@") :: h.lines)
  jsJoin "\n" ret ++ "\n"

/-! ### Patch Engine helpers of the server -/

/-- Model of `makeUnifiedDiff(pathLabel, oldStr, newStr)`:
`createPatch(pathLabel, oldStr || '', newStr || '', '', '')`. -/
def makeUnifiedDiff (pathLabel oldStr newStr : String) : String :=
  createPatch pathLabel oldStr newStr

/-- One split hunk as produced by `splitDiffIntoHunks`. -/
structure HunkSplit where
  header : String
  hunkText : String
deriving Repr

/-- Template interpolation of a possibly-`NaN` number. -/
def numInterp : Option Int → String
  | some n => toString n
  | none => "NaN"

/-- Model of `splitDiffIntoHunks(unifiedDiff)`: re-parse the diff and emit,
per hunk, a rebuilt header of the form `@@ oldStart,oldLines newStart,newLines @@`
followed by the hunk body lines.  Note the rebuilt header carries no `-`/`+`
signs.  The catch-branch fallback split of the source is unreachable here
because non-strict `parsePatch` never throws. -/
def splitDiffIntoHunks (unifiedDiff : String) : List HunkSplit :=
  let patches := parsePatch unifiedDiff
  patches.flatMap (fun p =>
    p.hunks.map (fun h =>
      let header := "@@ " ++ numInterp h.oldStart ++ "," ++ toString h.oldLines ++
        " " ++ numInterp h.newStart ++ "," ++ toString h.newLines ++ " @@"
      let full := header ++ "\n" ++ jsJoin "\n" h.lines ++ "\n"
      ⟨header, full⟩))

/-- Model of `applySelectedHunks(oldStr, originalUnifiedPatch,
selectedHunkTexts)`: rebuild a patch from the original file headers (note the
`***`-style old-file line) and the selected hunk texts, then apply it;
`Except.error` carries the `error` field of the returned failure object. -/
def applySelectedHunks (oldStr originalUnifiedPatch : String)
    (selectedHunkTexts : List String) : Except String String :=
  let patches := parsePatch originalUnifiedPatch
  match patches with
  | [] => Except.error "could not parse original patch"
  | p :: _ =>
    let patchHeader := "*** " ++ (p.oldFileName.getD "undefined") ++ "\n--- " ++
      (p.newFileName.getD "undefined") ++ "\n"
    let patchBody := jsJoin "\n" selectedHunkTexts
    let newPatch := patchHeader ++ patchBody
    match applyPatch oldStr newPatch with
    | .error e => Except.error e
    | .ok none => Except.error "applyPatch returned false"
    | .ok (some result) => Except.ok result

/-! ### The `/assistant` proposal builder -/

/-- JavaScript `String(x)` coercion, used by `+` concatenation and object-key
coercion (arrays stringify as their comma join, objects as
`[object Object]`). -/
def Json.plusString : Json → String
  | .null => "null"
  | .bool b => if b then "true" else "false"
  | .num s => s
  | .str s => s
  | .arr xs => jsJoin "," (Json.joinStringList xs)
  | .obj _ => "[object Object]"

/-- The `act.content ?? ''` value as the string passed on to diffing or
writing; a truthy non-string content makes the downstream library call throw
a `TypeError`, which the per-action catch turns into a failure outcome. -/
def jsContentString (content : Json) : Except String String :=
  match content with
  | .null => Except.ok ""
  | .str s => Except.ok s
  | _ => Except.error "TypeError: content is not a string"

/-- One entry of the `diffs` array returned by the proposal builder. -/
structure PreviewEntry where
  action : Json
  ok : Bool
  diff : Option String
  hunks : Option (List HunkSplit)
  error : Option String
deriving Repr

/-- The workspace read of the proposal builder in state-passing form: the
only filesystem operations of the builder are `fs.stat` and `fs.readFile`
inside `getFileContentOrEmpty`, which leave the workspace untouched. -/
def getFileContentOrEmptySt (root : String) (fs : FS) (relPath : Json) : FS × String :=
  (fs, getFileContentOrEmpty root fs relPath)

/-- The shared invalid-action test `!act || !act.action || !act.path` of the
proposal builder and the apply coordinator. -/
def invalidActionCheck (act : Json) : Bool :=
  !act.truthy || !(act.field "action").truthy || !(act.field "path").truthy

/-- One iteration of the proposal-builder loop over `parsed.actions`: an
invalid or unknown action yields an `ok := false` entry, otherwise the
current content is fetched, the unified diff against the proposed content is
computed and split into hunks; any thrown error is caught into an
`ok := false` entry.  The workspace state is threaded through untouched. -/
def previewOneSt (root : String) (fs : FS) (act : Json) : FS × PreviewEntry :=
  if invalidActionCheck act then
    (fs, ⟨act, false, none, none, some "invalid action object"⟩)
  else
    let label := (act.field "path").plusString
    match act.field "action" with
    | .str kind =>
      if kind = "delete" then
        let r := getFileContentOrEmptySt root fs (act.field "path")
        let diff := makeUnifiedDiff label r.2 ""
        (r.1, ⟨act, true, some diff, some (splitDiffIntoHunks diff), none⟩)
      else if kind = "create" then
        let r := getFileContentOrEmptySt root fs (act.field "path")
        let afterE :=
          if (act.field "isDirectory").truthy then Except.ok ""
          else jsContentString (act.field "content")
        match afterE with
        | .ok after =>
          let diff := makeUnifiedDiff label r.2 after
          (r.1, ⟨act, true, some diff, some (splitDiffIntoHunks diff), none⟩)
        | .error e => (r.1, ⟨act, false, none, none, some e⟩)
      else if kind = "edit" then
        let r := getFileContentOrEmptySt root fs (act.field "path")
        match jsContentString (act.field "content") with
        | .ok after =>
          let diff := makeUnifiedDiff label r.2 after
          (r.1, ⟨act, true, some diff, some (splitDiffIntoHunks diff), none⟩)
        | .error e => (r.1, ⟨act, false, none, none, some e⟩)
      else (fs, ⟨act, false, none, none, some "unknown action type"⟩)
    | _ => (fs, ⟨act, false, none, none, some "unknown action type"⟩)

/-- The proposal-builder loop in state-passing form. -/
def previewBatchSt (root : String) : FS → List Json → FS × List PreviewEntry
  | fs, [] => (fs, [])
  | fs, act :: rest =>
    let r := previewOneSt root fs act
    let rr := previewBatchSt root r.1 rest
    (rr.1, r.2 :: rr.2)

/-- One preview entry, ignoring the threaded state. -/
def previewOne (root : String) (fs : FS) (act : Json) : PreviewEntry :=
  (previewOneSt root fs act).2

/-- The `diffs` array of a proposal. -/
def previewBatch (root : String) (fs : FS) (acts : List Json) : List PreviewEntry :=
  (previewBatchSt root fs acts).2

/-! ### The `/assistant` handler after the model call -/

/-- Set a field on a JSON object (`parsed.assistant_text = repairText`).  On
a non-object the assignment throws inside the repair `try` block and is
caught by its `catch`, so the value is returned unchanged. -/
def Json.setField (j : Json) (k : String) (v : Json) : Json :=
  match j with
  | .obj fields =>
    if (fields.lookup k).isSome then
      .obj (fields.map (fun kv => if kv.1 = k then (k, v) else kv))
    else .obj (fields ++ [(k, v)])
  | _ => j

/-- The parse-and-repair sequence of the `/assistant` handler: try
`tryParseJSONBlock` on the raw model text; on failure and with repair
enabled, consult the external repair call (`repairResult`, `none` when that
call threw) and re-parse its text, defaulting the parsed object's falsy
`assistant_text` to the repair text. -/
def assistantParsed (rawText : String) (repairOnFail : Bool)
    (repairResult : Option String) : Option Json :=
  match tryParseJSONBlock rawText with
  | some p => some p
  | none =>
    if repairOnFail then
      match repairResult with
      | some repairText =>
        match tryParseJSONBlock repairText with
        | some p =>
          some (if (p.field "assistant_text").truthy then p
            else p.setField "assistant_text" (Json.str repairText))
        | none => none
      | none => none
    else none

/-- The response body of the `/assistant` endpoint (the `provider` echo field
is omitted). -/
structure AssistantResponse where
  assistant_text : Json
  raw_model_text : String
  actions : Json
  diffs : List PreviewEntry
deriving Repr

/-- The `/assistant` handler after the model call produced `rawText`: parse
(with optional repair), degrade to the narrative-only empty-action response
when parsing failed, otherwise build the per-action diff previews.
`Except.error` models the outer catch producing a 500 response (reachable
only from a truthy non-iterable `actions` value). -/
def assistantRespond (root : String) (fs : FS) (rawText : String)
    (repairOnFail : Bool) (repairResult : Option String) :
    Except String AssistantResponse :=
  match assistantParsed rawText repairOnFail repairResult with
  | none =>
    Except.ok
      { assistant_text := Json.str rawText, raw_model_text := rawText,
        actions := Json.arr [], diffs := [] }
  | some parsed =>
    let actsJson := parsed.field "actions"
    let actListE : Except String (List Json) :=
      if actsJson.truthy then
        match actsJson with
        | .arr xs => Except.ok xs
        | .str s => Except.ok (s.data.map (fun c => Json.str (String.mk [c])))
        | _ => Except.error "TypeError: parsed.actions is not iterable"
      else Except.ok []
    match actListE with
    | .error e => Except.error e
    | .ok actList =>
      let diffs := previewBatch root fs actList
      Except.ok
        { assistant_text :=
            match parsed.field "assistant_text" with
            | .null => Json.str rawText
            | j => j,
          raw_model_text := rawText,
          actions := match actsJson with | .null => Json.arr [] | j => j,
          diffs := diffs }

/-! ### The `/assistant/apply` coordinator -/

/-- One entry of the `actionsApplied` array: a success records the action
kind, the echoed path and the optional directory flag or applied-hunk count;
a failure echoes the whole action value with an error message. -/
inductive Outcome where
  | ok (action : String) (path : Json) (isDirectory : Bool) (hunksApplied : Option Nat)
  | err (action : Json) (error : String)
deriving Repr

/-- The `act.originalDiff || ''` value passed to `applySelectedHunks`: falsy
values coerce to the empty string, a truthy non-string makes `parsePatch`
throw a `TypeError` (that call sits outside the library helper's `try`). -/
def jsDiffString (od : Json) : Except String String :=
  if od.truthy then
    match od with
    | .str s => Except.ok s
    | _ => Except.error "TypeError: originalDiff is not a string"
  else Except.ok ""

/-- One iteration of the apply loop: validate the action object, resolve its
path through the Workspace Guard, and perform the mutation for its kind;
every thrown error is caught into a failure outcome carrying the action.
Returns the new workspace, the outcome and the `pathsTouched` additions. -/
def applyOne (root : String) (fs : FS) (act : Json) : FS × Outcome × List Json :=
  if invalidActionCheck act then
    (fs, Outcome.err act "invalid action object", [])
  else
    let relPath := act.field "path"
    match resolveWorkspacePathJ root relPath with
    | .error e => (fs, Outcome.err act e, [])
    | .ok resolved =>
      match act.field "action" with
      | .str kind =>
        if kind = "create" then
          if (act.field "isDirectory").truthy then
            match fs.mkdirRec resolved with
            | .ok fs1 => (fs1, Outcome.ok "create" relPath true none, [])
            | .error e => (fs, Outcome.err act e, [])
          else
            match fs.mkdirRec (pathDirname resolved) with
            | .error e => (fs, Outcome.err act e, [])
            | .ok fs1 =>
              match jsContentString (act.field "content") with
              | .error e => (fs1, Outcome.err act e, [])
              | .ok content =>
                match fs1.writeFile resolved content with
                | .ok fs2 => (fs2, Outcome.ok "create" relPath false none, [relPath])
                | .error e => (fs1, Outcome.err act e, [])
        else if kind = "edit" then
          match act.field "selectedHunks" with
          | .arr (h :: hs) =>
            let before := getFileContentOrEmpty root fs relPath
            match jsDiffString (act.field "originalDiff") with
            | .error e => (fs, Outcome.err act e, [])
            | .ok originalDiff =>
              match applySelectedHunks before originalDiff
                  ((h :: hs).map Json.joinString) with
              | .ok result =>
                match fs.writeFile resolved result with
                | .ok fs1 =>
                  (fs1, Outcome.ok "edit" relPath false (some (h :: hs).length), [relPath])
                | .error e => (fs, Outcome.err act e, [])
              | .error e => (fs, Outcome.err act e, [])
          | _ =>
            match fs.mkdirRec (pathDirname resolved) with
            | .error e => (fs, Outcome.err act e, [])
            | .ok fs1 =>
              match jsContentString (act.field "content") with
              | .error e => (fs1, Outcome.err act e, [])
              | .ok content =>
                match fs1.writeFile resolved content with
                | .ok fs2 => (fs2, Outcome.ok "edit" relPath false none, [relPath])
                | .error e => (fs1, Outcome.err act e, [])
        else if kind = "delete" then
          (fs.rmRec resolved, Outcome.ok "delete" relPath false none, [relPath])
        else (fs, Outcome.err act "unknown action type", [])
      | _ => (fs, Outcome.err act "unknown action type", [])

/-- The apply loop over the whole batch, in input order. -/
def applyBatch (root : String) : FS → List Json → FS × List Outcome × List Json
  | fs, [] => (fs, [], [])
  | fs, act :: rest =>
    let r := applyOne root fs act
    let rr := applyBatch root r.1 rest
    (rr.1, r.2.1 :: rr.2.1, r.2.2 ++ rr.2.2)

/-- The filter of the read-back loop: successful outcomes whose action kind
is `create` or `edit` (a failure outcome's `action` field is the echoed
object, never strictly equal to those strings). -/
def okCreateEdit : Outcome → Option Json
  | .ok a p _ _ => if a = "create" ∨ a = "edit" then some p else none
  | .err _ _ => none

/-- The read-back of one changed file from the post-batch workspace: resolve
and read, catching any failure into the diagnostic
`<<failed to read: ...>>` marker string. -/
def readBack (root : String) (fs : FS) (p : Json) : String :=
  match resolveWorkspacePathJ root p with
  | .error e => "<<failed to read: " ++ e ++ ">>"
  | .ok r =>
    match fs.readFile r with
    | .ok c => c
    | .error e => "<<failed to read: " ++ e ++ ">>"

/-- One assignment of the `changedFiles` loop: a successful create/edit
outcome binds its (string-coerced) path to the read-back content, later
bindings overwriting earlier ones as JavaScript object assignment does. -/
def changedFilesStep (root : String) (fs : FS) (m : List (String × String))
    (o : Outcome) : List (String × String) :=
  match okCreateEdit o with
  | some p => setAssoc p.plusString (readBack root fs p) m
  | none => m

/-- The `changedFiles` fold over the outcome list, starting from the empty
object. -/
def buildChangedFiles (root : String) (fs : FS) (os : List Outcome) :
    List (String × String) :=
  os.foldl (changedFilesStep root fs) []

/-- The version-trail result reported by `gitCommit` (an external subprocess;
its outcome is an oracle input to the handler). -/
structure GitRes where
  ok : Bool
  error : Option String
deriving Repr

/-- The response body of the `/assistant/apply` endpoint. -/
structure ApplyResponse where
  ok : Bool
  actionsApplied : List Outcome
  gitResult : GitRes
  changedFiles : List (String × String)
deriving Repr

/-- The `/assistant/apply` handler on a well-formed request (`actions` is an
array): run the batch, commit the touched paths through the external version
trail (whose outcome is the `gitResult` oracle), read back the changed files,
and answer with the constant `ok := true`. -/
def applyHandler (root : String) (fs : FS) (actions : List Json)
    (gitResult : GitRes) : FS × ApplyResponse :=
  let (fs1, outcomes, _pathsTouched) := applyBatch root fs actions
  let changed := buildChangedFiles root fs1 outcomes
  (fs1,
    { ok := true, actionsApplied := outcomes, gitResult := gitResult,
      changedFiles := changed })

/-! ### Claim theorems -/

/-- A path under the workspace root in particular has the root as a string
prefix, so the guard's `startsWith` check accepts it. -/
theorem startsWith_of_underRoot (root p : String) (h : isUnderRoot root p = true) :
    jsStartsWith p root = true := by
  unfold isUnderRoot at h
  rw [Bool.or_eq_true] at h
  rcases h with h | h
  · have hp : p = root := by simpa using h
    subst hp
    simp [jsStartsWith, List.isPrefixOf_iff_prefix]
  · unfold jsStartsWith at h ⊢
    rw [List.isPrefixOf_iff_prefix] at h ⊢
    refine List.IsPrefix.trans ?_ h
    rw [String.data_append]
    exact List.prefix_append _ _

/-- Claim C1, counterexample: the relative path `../workspace2` resolves to
`/srv/app/workspace2`, which lies outside the workspace root
`/srv/app/workspace`, yet `resolveWorkspacePath` accepts it instead of
failing — the bare `startsWith` prefix check admits sibling directories whose
absolute path extends the root string. -/
theorem C1_outOfBounds_counterexample :
    resolveWorkspacePath "/srv/app/workspace" "../workspace2" =
      Except.ok "/srv/app/workspace2" ∧
    isUnderRoot "/srv/app/workspace" "/srv/app/workspace2" = false :=
  ⟨rfl, rfl⟩

/-- Claim C1, amended: every relative path resolving inside the workspace
root is accepted and returned as its resolved absolute form, and every
relative path whose resolved absolute form does not have the root as a string
prefix fails with the out-of-bounds error; the acceptance condition is the
string-prefix check, which also admits out-of-root sibling paths extending
the root string. -/
theorem C1_resolve_amended (root rel : String) :
    (isUnderRoot root (pathResolve2 root (pathNormalize rel)) = true →
      resolveWorkspacePath root rel =
        Except.ok (pathResolve2 root (pathNormalize rel))) ∧
    (jsStartsWith (pathResolve2 root (pathNormalize rel)) root = false →
      resolveWorkspacePath root rel =
        Except.error "Path outside workspace forbidden") := by
  constructor
  · intro h
    have hs := startsWith_of_underRoot root _ h
    unfold resolveWorkspacePath
    simp [hs]
  · intro h
    unfold resolveWorkspacePath
    simp [h]

/-- Witness for the amended claim C1 at concrete inputs: a path inside the
root is returned resolved, a traversal escaping above the root fails. -/
theorem C1_resolve_amended_witness :
    resolveWorkspacePath "/srv/app/workspace" "docs/readme.md" =
      Except.ok "/srv/app/workspace/docs/readme.md" ∧
    resolveWorkspacePath "/srv/app/workspace" "../../etc/passwd" =
      Except.error "Path outside workspace forbidden" :=
  ⟨(C1_resolve_amended "/srv/app/workspace" "docs/readme.md").1 (by rfl),
   (C1_resolve_amended "/srv/app/workspace" "../../etc/passwd").2 (by rfl)⟩

/-- Claim C2 fails on the code: for the texts `"a\n"` and `"b\n"`, the unified
diff splits into a single hunk whose rebuilt header `@@ 1,1 1,1 @@` lacks the
`-`/`+` signs of the unified hunk format, so re-parsing it inside
`applySelectedHunks` produces `NaN` positions and `applyPatch` returns
`false`: applying all hunks yields the failure
`applyPatch returned false` instead of reproducing the after text. -/
theorem C2_roundTrip_failing_input :
    splitDiffIntoHunks (makeUnifiedDiff "a.txt" "a\n" "b\n") =
      [⟨"@@ 1,1 1,1 @@", "@@ 1,1 1,1 @@\n-a\n+b\n"⟩] ∧
    applySelectedHunks "a\n" (makeUnifiedDiff "a.txt" "a\n" "b\n")
      ((splitDiffIntoHunks (makeUnifiedDiff "a.txt" "a\n" "b\n")).map
        HunkSplit.hunkText) =
      Except.error "applyPatch returned false" :=
  ⟨rfl, rfl⟩

/-- Claim C3: an `edit` action carrying a non-empty hunk selection whose
selective apply fails leaves the workspace completely unchanged and records
the failure as that action's outcome. -/
theorem C3_selective_edit_atomic (root : String) (fs : FS) (act : Json)
    (resolved od e : String) (h : Json) (hs : List Json)
    (hValid : invalidActionCheck act = false)
    (hKind : act.field "action" = Json.str "edit")
    (hSel : act.field "selectedHunks" = Json.arr (h :: hs))
    (hRes : resolveWorkspacePathJ root (act.field "path") = Except.ok resolved)
    (hOd : jsDiffString (act.field "originalDiff") = Except.ok od)
    (hFail : applySelectedHunks (getFileContentOrEmpty root fs (act.field "path")) od
      ((h :: hs).map Json.joinString) = Except.error e) :
    applyOne root fs act = (fs, Outcome.err act e, []) := by
  unfold applyOne
  simp only [List.map_cons] at hFail
  simp [hValid, hKind, hSel, hRes, hOd, hFail]

/-- Witness for claim C3: a concrete selected hunk (as split hunks are
actually shaped) fails to apply, the outcome records the error and the
workspace still holds the original file content. -/
theorem C3_selective_edit_atomic_witness :
    applyOne "/w" ⟨[("/w/a.txt", "hello")], ["/w"]⟩
      (Json.obj [("action", Json.str "edit"), ("path", Json.str "a.txt"),
        ("selectedHunks", Json.arr [Json.str "@@ 1,1 1,1 @@\n-x\n+y"])]) =
    (⟨[("/w/a.txt", "hello")], ["/w"]⟩,
      Outcome.err
        (Json.obj [("action", Json.str "edit"), ("path", Json.str "a.txt"),
          ("selectedHunks", Json.arr [Json.str "@@ 1,1 1,1 @@\n-x\n+y"])])
        "applyPatch returned false", []) :=
  C3_selective_edit_atomic "/w" ⟨[("/w/a.txt", "hello")], ["/w"]⟩
    (Json.obj [("action", Json.str "edit"), ("path", Json.str "a.txt"),
      ("selectedHunks", Json.arr [Json.str "@@ 1,1 1,1 @@\n-x\n+y"])])
    "/w/a.txt" "" "applyPatch returned false" (Json.str "@@ 1,1 1,1 @@\n-x\n+y") []
    (by rfl) (by rfl) (by rfl) (by rfl) (by rfl) (by rfl)

/-- Claim C4: whenever structured parsing of the raw model text fails and the
single repair pass (if enabled and attempted) also fails to parse, the
`/assistant` handler still answers with a well-formed response carrying an
empty action list and the raw model text verbatim as the narrative; the model
of the parser is a total function, so no exception can escape. -/
theorem C4_parser_never_raises (root : String) (fs : FS) (rawText : String)
    (repairOnFail : Bool) (repairResult : Option String)
    (hraw : tryParseJSONBlock rawText = none)
    (hrep : ∀ t, repairResult = some t → tryParseJSONBlock t = none) :
    assistantRespond root fs rawText repairOnFail repairResult =
      Except.ok
        { assistant_text := Json.str rawText, raw_model_text := rawText,
          actions := Json.arr [], diffs := [] } := by
  unfold assistantRespond assistantParsed
  rw [hraw]
  cases repairOnFail with
  | false => rfl
  | true =>
    cases hRR : repairResult with
    | none => rfl
    | some t => simp [hrep t hRR]

/-- Witness for claim C4: neither the narrative `hello` nor the repair
attempt's reply `world` parses as JSON, and the response degrades exactly to
the empty-action narrative echo. -/
theorem C4_parser_never_raises_witness :
    assistantRespond "/w" ⟨[], []⟩ "hello" true (some "world") =
      Except.ok
        { assistant_text := Json.str "hello", raw_model_text := "hello",
          actions := Json.arr [], diffs := [] } :=
  C4_parser_never_raises "/w" ⟨[], []⟩ "hello" true (some "world") (by rfl)
    (by intro t ht; cases ht; rfl)

/-- Claim C5: a batch of `N` actions always yields exactly `N` outcomes, in
input order; the outcome at position `i` is the result of applying action `i`
to the state left by the prefix before it, regardless of any failures among
the earlier outcomes — so one failure never aborts the processing of
subsequent actions. -/
theorem C5_batch_n_outcomes (root : String) (fs : FS) (acts : List Json) :
    (applyBatch root fs acts).2.1.length = acts.length ∧
    ∀ i : Nat,
      (applyBatch root fs acts).2.1.get? i =
        (acts.get? i).map
          (fun a => (applyOne root (applyBatch root fs (acts.take i)).1 a).2.1) := by
  constructor
  · induction acts generalizing fs with
    | nil => rfl
    | cons a rest ih => simp [applyBatch, ih]
  · intro i
    induction acts generalizing fs i with
    | nil => simp [applyBatch]
    | cons a rest ih =>
      cases i with
      | zero => simp [applyBatch]
      | succ n =>
        simp only [applyBatch, List.get?_cons_succ, List.take_succ_cons]
        exact ih (applyOne root fs a).1 n

/-- The proposal builder's per-action step leaves the workspace state
untouched: its only filesystem operations are the reads inside
`getFileContentOrEmpty`. -/
theorem previewOneSt_fst (root : String) (fs : FS) (act : Json) :
    (previewOneSt root fs act).1 = fs := by
  unfold previewOneSt getFileContentOrEmptySt
  repeat' split
  all_goals try rfl
  all_goals (cases jsContentString (act.field "content") <;> rfl)

/-- The proposal builder leaves the workspace state untouched over a whole
batch. -/
theorem previewBatchSt_fst (root : String) (fs : FS) (acts : List Json) :
    (previewBatchSt root fs acts).1 = fs := by
  induction acts generalizing fs with
  | nil => rfl
  | cons a rest ih => simp [previewBatchSt, previewOneSt_fst, ih]

/-- Unfolding lemma for the proposal list: because the state is never
mutated, each entry is computed against the same workspace. -/
theorem previewBatch_cons (root : String) (fs : FS) (a : Json) (rest : List Json) :
    previewBatch root fs (a :: rest) =
      previewOne root fs a :: previewBatch root fs rest := by
  unfold previewBatch previewOne
  simp [previewBatchSt, previewOneSt_fst]

/-- Claim C7: the proposal builder returns exactly one entry per input action
in input order (entry `i` is the preview of action `i`), and an invalid
action (falsy object, missing kind or missing path) yields an `ok := false`
entry with the `invalid action object` error without affecting any other
entry. -/
theorem C7_proposal_per_action (root : String) (fs : FS) (acts : List Json) :
    (previewBatch root fs acts).length = acts.length ∧
    (∀ i : Nat,
      (previewBatch root fs acts).get? i = (acts.get? i).map (previewOne root fs)) ∧
    (∀ act : Json, invalidActionCheck act = true →
      previewOne root fs act = ⟨act, false, none, none, some "invalid action object"⟩) := by
  refine ⟨?_, ?_, ?_⟩
  · induction acts with
    | nil => rfl
    | cons a rest ih => simp [previewBatch_cons, ih]
  · intro i
    induction acts generalizing i with
    | nil => simp [previewBatch, previewBatchSt]
    | cons a rest ih =>
      cases i with
      | zero => simp [previewBatch_cons]
      | succ n => simp only [previewBatch_cons, List.get?_cons_succ]; exact ih n
  · intro act h
    unfold previewOne previewOneSt
    simp [h]

/-- Witness for claim C7 at the spec's example: a missing-path action and a
valid create action preview to two entries in order, `ok := false` for the
invalid one (shown via the claim's invalid-action part) and a batch of two
entries overall (shown via the length part). -/
theorem C7_proposal_per_action_witness :
    previewOne "/w" ⟨[], []⟩ (Json.obj [("action", Json.str "create")]) =
      ⟨Json.obj [("action", Json.str "create")], false, none, none,
        some "invalid action object"⟩ ∧
    (previewBatch "/w" ⟨[], []⟩
      [Json.obj [("action", Json.str "create")],
       Json.obj [("action", Json.str "create"), ("path", Json.str "a.txt"),
         ("content", Json.str "x")]]).length = 2 :=
  ⟨(C7_proposal_per_action "/w" ⟨[], []⟩ []).2.2
      (Json.obj [("action", Json.str "create")]) (by rfl),
   (C7_proposal_per_action "/w" ⟨[], []⟩
      [Json.obj [("action", Json.str "create")],
       Json.obj [("action", Json.str "create"), ("path", Json.str "a.txt"),
         ("content", Json.str "x")]]).1⟩

/-- Claim C8: building a proposal never mutates the workspace — the
state-threaded builder returns the state it was given — and the
current-content fetch treats a missing path or a directory as the empty
string instead of failing. -/
theorem C8_preview_readonly (root : String) (fs : FS) (acts : List Json) :
    (previewBatchSt root fs acts).1 = fs ∧
    (∀ rel r, resolveWorkspacePathJ root rel = Except.ok r → fs.isFile r = false →
      getFileContentOrEmpty root fs rel = "") ∧
    (∀ rel r, resolveWorkspacePathJ root rel = Except.ok r → fs.isDir r = true →
      getFileContentOrEmpty root fs rel = "") := by
  refine ⟨previewBatchSt_fst root fs acts, ?_, ?_⟩
  · intro rel r hres hfile
    unfold getFileContentOrEmpty
    rw [hres]
    unfold FS.isFile at hfile
    cases hl : fs.files.lookup r with
    | some c => rw [hl] at hfile; simp at hfile
    | none => simp [hl]
  · intro rel r hres hdir
    unfold getFileContentOrEmpty
    rw [hres]
    simp [hdir]

/-- Witness for claim C8: a two-action preview returns the original workspace
state, and both a missing file and a directory read back as the empty
string. -/
theorem C8_preview_readonly_witness :
    (previewBatchSt "/w" ⟨[("/w/a.txt", "x")], ["/w"]⟩
      [Json.obj [("action", Json.str "edit"), ("path", Json.str "a.txt"),
        ("content", Json.str "y")],
       Json.obj [("action", Json.str "delete"), ("path", Json.str "a.txt")]]).1 =
      ⟨[("/w/a.txt", "x")], ["/w"]⟩ ∧
    getFileContentOrEmpty "/w" ⟨[("/w/a.txt", "x")], ["/w"]⟩
      (Json.str "missing.txt") = "" ∧
    getFileContentOrEmpty "/w" ⟨[("/w/a.txt", "x")], ["/w"]⟩ (Json.str ".") = "" :=
  ⟨(C8_preview_readonly "/w" ⟨[("/w/a.txt", "x")], ["/w"]⟩
      [Json.obj [("action", Json.str "edit"), ("path", Json.str "a.txt"),
        ("content", Json.str "y")],
       Json.obj [("action", Json.str "delete"), ("path", Json.str "a.txt")]]).1,
   (C8_preview_readonly "/w" ⟨[("/w/a.txt", "x")], ["/w"]⟩ []).2.1
      (Json.str "missing.txt") "/w/missing.txt" (by rfl) (by rfl),
   (C8_preview_readonly "/w" ⟨[("/w/a.txt", "x")], ["/w"]⟩ []).2.2
      (Json.str ".") "/w" (by rfl) (by rfl)⟩

/-- Claim C9: for every well-formed apply request the top-level `ok` field of
the response is the constant `true`, whatever the per-action outcomes, the
workspace state or the version-trail result — so it carries no success
information. -/
theorem C9_apply_ok_constant (root : String) (fs : FS) (actions : List Json)
    (git : GitRes) : (applyHandler root fs actions git).2.ok = true := rfl

/-- Overwriting insertion makes the inserted binding visible. -/
theorem lookup_setAssoc_self (k v : String) (m : List (String × String)) :
    (setAssoc k v m).lookup k = some v := by
  induction m with
  | nil => simp [setAssoc, List.lookup]
  | cons kv rest ih =>
    by_cases h : kv.1 = k
    · simp [setAssoc, h, List.lookup]
    · have hb : (k == kv.1) = false := beq_eq_false_iff_ne.mpr (Ne.symm h)
      simp [setAssoc, h, List.lookup, hb, ih]

/-- Overwriting insertion leaves other keys untouched. -/
theorem lookup_setAssoc_ne (k v k' : String) (m : List (String × String))
    (h : k' ≠ k) : (setAssoc k v m).lookup k' = m.lookup k' := by
  have hb : (k' == k) = false := beq_eq_false_iff_ne.mpr h
  induction m with
  | nil => simp [setAssoc, List.lookup, hb]
  | cons kv rest ih =>
    by_cases hk : kv.1 = k
    · subst hk
      simp [setAssoc, List.lookup, hb]
    · simp [setAssoc, hk, List.lookup, ih]

/-- The `mkdir(dirname)` plus `writeFile` tail of the full-content write
branches: when the parent path is not a regular file, the target is not a
directory and the parent differs from the target, the directory step succeeds
without touching the file map and the write lands the content. -/
theorem mkdirWrite_ok (fs : FS) (resolved content : String)
    (hDirFile : fs.isFile (pathDirname resolved) = false)
    (hNotDir : fs.isDir resolved = false)
    (hNe : pathDirname resolved ≠ resolved) :
    ∃ fs1, fs.mkdirRec (pathDirname resolved) = Except.ok fs1 ∧
      fs1.writeFile resolved content =
        Except.ok { fs1 with files := setAssoc resolved content fs1.files } ∧
      fs1.files = fs.files := by
  by_cases hdd : fs.isDir (pathDirname resolved)
  · refine ⟨fs, by simp [FS.mkdirRec, hDirFile, hdd], ?_, rfl⟩
    simp [FS.writeFile, hNotDir]
  · refine ⟨{ fs with dirs := pathDirname resolved :: fs.dirs },
      by simp [FS.mkdirRec, hDirFile, hdd], ?_, rfl⟩
    have hc : (({ fs with dirs := pathDirname resolved :: fs.dirs } : FS).isDir resolved)
        = false := by
      unfold FS.isDir at hNotDir ⊢
      simp only [List.contains_cons, Bool.or_eq_false_iff]
      exact ⟨beq_eq_false_iff_ne.mpr (fun hh => hNe hh.symm), hNotDir⟩
    simp [FS.writeFile, hc]

/-- Claim C10: an `edit` action with no hunk selection (or a file `create`
action) whose `content` field is absent writes the empty string to the target
path — an existing file is silently truncated rather than left unchanged. -/
theorem C10_absent_content_writes_empty (root : String) (fs : FS) (act : Json)
    (resolved : String)
    (hValid : invalidActionCheck act = false)
    (hKind : act.field "action" = Json.str "edit" ∨
      (act.field "action" = Json.str "create" ∧
        (act.field "isDirectory").truthy = false))
    (hContent : act.field "content" = Json.null)
    (hSel : act.field "selectedHunks" = Json.null)
    (hRes : resolveWorkspacePathJ root (act.field "path") = Except.ok resolved)
    (hDirFile : fs.isFile (pathDirname resolved) = false)
    (hNotDir : fs.isDir resolved = false)
    (hNe : pathDirname resolved ≠ resolved) :
    (applyOne root fs act).1.files.lookup resolved = some "" ∧
    ∃ k, (applyOne root fs act).2.1 = Outcome.ok k (act.field "path") false none := by
  obtain ⟨fs1, hmk, hwr, hfiles⟩ := mkdirWrite_ok fs resolved "" hDirFile hNotDir hNe
  rcases hKind with hK | ⟨hK, hDir⟩
  · unfold applyOne
    simp [hValid, hRes, hK, hSel, hContent, jsContentString, hmk, hwr,
      lookup_setAssoc_self]
  · unfold applyOne
    simp [hValid, hRes, hK, hDir, hContent, jsContentString, hmk, hwr,
      lookup_setAssoc_self]

/-- Witness for claim C10: an `edit` of `a.txt` with no `content` field
truncates the existing file content `hello` to the empty string and reports
success. -/
theorem C10_absent_content_writes_empty_witness :
    (applyOne "/w" ⟨[("/w/a.txt", "hello")], ["/w"]⟩
      (Json.obj [("action", Json.str "edit"),
        ("path", Json.str "a.txt")])).1.files.lookup "/w/a.txt" = some "" ∧
    ∃ k, (applyOne "/w" ⟨[("/w/a.txt", "hello")], ["/w"]⟩
      (Json.obj [("action", Json.str "edit"),
        ("path", Json.str "a.txt")])).2.1 =
      Outcome.ok k ((Json.obj [("action", Json.str "edit"),
        ("path", Json.str "a.txt")]).field "path") false none :=
  C10_absent_content_writes_empty "/w" ⟨[("/w/a.txt", "hello")], ["/w"]⟩
    (Json.obj [("action", Json.str "edit"), ("path", Json.str "a.txt")])
    "/w/a.txt" (by rfl) (Or.inl (by rfl)) (by rfl) (by rfl) (by rfl) (by rfl)
    (by rfl) (by decide)

/-- Key and value tracking of the `changedFiles` fold from an arbitrary
initial object: a key is present exactly when it was present initially or is
the coerced path of some successful create/edit outcome, and every stored
value is the read-back of such a path (or survived from the initial
object). -/
theorem changedFiles_foldl_spec (root : String) (fs : FS) (os : List Outcome) :
    ∀ (m : List (String × String)) (key : String),
      (((os.foldl (changedFilesStep root fs) m).lookup key).isSome = true ↔
        ((m.lookup key).isSome = true ∨
          key ∈ (os.filterMap okCreateEdit).map Json.plusString)) ∧
      ∀ v, (os.foldl (changedFilesStep root fs) m).lookup key = some v →
        ((∃ pj ∈ os.filterMap okCreateEdit,
            Json.plusString pj = key ∧ v = readBack root fs pj) ∨
          m.lookup key = some v) := by
  induction os with
  | nil =>
    intro m key
    exact ⟨by simp, fun v hv => Or.inr (by simpa using hv)⟩
  | cons o rest ih =>
    intro m key
    cases hoc : okCreateEdit o with
    | none =>
      have hstep : changedFilesStep root fs m o = m := by
        simp [changedFilesStep, hoc]
      constructor
      · simpa [List.foldl_cons, hstep, List.filterMap_cons, hoc] using (ih m key).1
      · intro v hv
        rcases (ih m key).2 v (by simpa [List.foldl_cons, hstep] using hv) with h | h
        · obtain ⟨pj, hmem, hrest⟩ := h
          exact Or.inl ⟨pj, by simp [List.filterMap_cons, hoc, hmem], hrest⟩
        · exact Or.inr h
    | some p =>
      have hstep : changedFilesStep root fs m o =
          setAssoc p.plusString (readBack root fs p) m := by
        simp [changedFilesStep, hoc]
      by_cases hk : key = Json.plusString p
      · constructor
        · constructor
          · intro _
            right
            simp [List.filterMap_cons, hoc, hk]
          · intro _
            have h1 := (ih (setAssoc p.plusString (readBack root fs p) m) key).1
            rw [List.foldl_cons, hstep]
            refine h1.2 (Or.inl ?_)
            rw [hk, lookup_setAssoc_self]
            rfl
        · intro v hv
          rcases (ih (setAssoc p.plusString (readBack root fs p) m) key).2 v
              (by simpa [List.foldl_cons, hstep] using hv) with h | h
          · obtain ⟨pj, hmem, hrest⟩ := h
            exact Or.inl ⟨pj, by simp [List.filterMap_cons, hoc, hmem], hrest⟩
          · rw [hk, lookup_setAssoc_self] at h
            exact Or.inl ⟨p, by simp [List.filterMap_cons, hoc], hk.symm,
              (Option.some.inj h).symm⟩
      · have hne : (setAssoc p.plusString (readBack root fs p) m).lookup key =
            m.lookup key :=
          lookup_setAssoc_ne p.plusString (readBack root fs p) key m hk
        constructor
        · rw [List.foldl_cons, hstep]
          rw [(ih (setAssoc p.plusString (readBack root fs p) m) key).1, hne]
          simp [List.filterMap_cons, hoc, hk]
        · intro v hv
          rcases (ih (setAssoc p.plusString (readBack root fs p) m) key).2 v
              (by simpa [List.foldl_cons, hstep] using hv) with h | h
          · obtain ⟨pj, hmem, hrest⟩ := h
            exact Or.inl ⟨pj, by simp [List.filterMap_cons, hoc, hmem], hrest⟩
          · rw [hne] at h
            exact Or.inr h

/-- Claim C6, counterexample: in the batch
`[create a.txt "x", delete a.txt]` both actions succeed, so `a.txt` is the
path of a successful create action, yet after the batch the file no longer
exists and `changedFiles` maps it to the `<<failed to read: ...>>` marker
instead of a post-mutation content. -/
theorem C6_changedFiles_counterexample :
    (applyHandler "/w" ⟨[], []⟩
      [Json.obj [("action", Json.str "create"), ("path", Json.str "a.txt"),
        ("content", Json.str "x")],
       Json.obj [("action", Json.str "delete"), ("path", Json.str "a.txt")]]
      ⟨true, none⟩).2.actionsApplied =
      [Outcome.ok "create" (Json.str "a.txt") false none,
       Outcome.ok "delete" (Json.str "a.txt") false none] ∧
    (applyHandler "/w" ⟨[], []⟩
      [Json.obj [("action", Json.str "create"), ("path", Json.str "a.txt"),
        ("content", Json.str "x")],
       Json.obj [("action", Json.str "delete"), ("path", Json.str "a.txt")]]
      ⟨true, none⟩).2.changedFiles =
      [("a.txt", "<<failed to read: ENOENT: no such file or directory>>")] ∧
    ((applyHandler "/w" ⟨[], []⟩
      [Json.obj [("action", Json.str "create"), ("path", Json.str "a.txt"),
        ("content", Json.str "x")],
       Json.obj [("action", Json.str "delete"), ("path", Json.str "a.txt")]]
      ⟨true, none⟩).1.files.lookup "/w/a.txt") = none :=
  ⟨rfl, rfl, rfl⟩

/-- Claim C6, amended: the key set of `changedFiles` is exactly the set of
(string-coerced) paths of the successful create/edit outcomes, and each key
maps to the post-batch read-back of such a path — the file's content when it
is still a readable file, and the `<<failed to read: ...>>` marker otherwise
(for example after a later delete of the same path); the claim's concrete
batch `[create a.txt "x", delete missing.txt]` behaves as stated. -/
theorem C6_changedFiles_amended (root : String) (fs : FS) (acts : List Json)
    (git : GitRes) :
    (∀ key : String,
      (((applyHandler root fs acts git).2.changedFiles.lookup key).isSome = true ↔
        key ∈ (((applyHandler root fs acts git).2.actionsApplied.filterMap
          okCreateEdit).map Json.plusString))) ∧
    ∀ key v,
      (applyHandler root fs acts git).2.changedFiles.lookup key = some v →
      ∃ pj ∈ (applyHandler root fs acts git).2.actionsApplied.filterMap okCreateEdit,
        Json.plusString pj = key ∧
          v = readBack root (applyHandler root fs acts git).1 pj := by
  have hspec := changedFiles_foldl_spec root (applyBatch root fs acts).1
    (applyBatch root fs acts).2.1
  constructor
  · intro key
    have h := (hspec [] key).1
    simpa [buildChangedFiles] using h
  · intro key v hv
    have h := (hspec [] key).2 v (by simpa [buildChangedFiles] using hv)
    rcases h with h | h
    · exact h
    · simp [List.lookup] at h

/-- Witness for the amended claim C6 at the spec's concrete batch
`[create a.txt "x", delete missing.txt]`: the stored value for the key
`a.txt` is the read-back of a successful create/edit outcome's path. -/
theorem C6_changedFiles_amended_witness :
    ∃ pj ∈ ((applyHandler "/w" ⟨[], []⟩
        [Json.obj [("action", Json.str "create"), ("path", Json.str "a.txt"),
          ("content", Json.str "x")],
         Json.obj [("action", Json.str "delete"), ("path", Json.str "missing.txt")]]
        ⟨true, none⟩).2.actionsApplied.filterMap okCreateEdit),
      Json.plusString pj = "a.txt" ∧
        "x" = readBack "/w"
          (applyHandler "/w" ⟨[], []⟩
            [Json.obj [("action", Json.str "create"), ("path", Json.str "a.txt"),
              ("content", Json.str "x")],
             Json.obj [("action", Json.str "delete"),
               ("path", Json.str "missing.txt")]]
            ⟨true, none⟩).1 pj :=
  (C6_changedFiles_amended "/w" ⟨[], []⟩
    [Json.obj [("action", Json.str "create"), ("path", Json.str "a.txt"),
      ("content", Json.str "x")],
     Json.obj [("action", Json.str "delete"), ("path", Json.str "missing.txt")]]
    ⟨true, none⟩).2 "a.txt" "x" (by rfl)

end Copilot

/-! ### Sanity evaluations of the embedding on concrete inputs -/

section SanityChecks
open Copilot
example : pathNormalize "../workspace2" = "../workspace2" := by decide
example : resolveWorkspacePath "/srv/app/workspace" "../workspace2" =
    Except.ok "/srv/app/workspace2" := by rfl
example : isUnderRoot "/srv/app/workspace" "/srv/app/workspace2" = false := by decide
example : resolveWorkspacePath "/srv/app/workspace" "src/a.txt" =
    Except.ok "/srv/app/workspace/src/a.txt" := by rfl
example : resolveWorkspacePath "/srv/app/workspace" "../../etc/passwd" =
    Except.error "Path outside workspace forbidden" := by rfl
example : resolveWorkspacePath "/srv/app/workspace" "" =
    Except.ok "/srv/app/workspace" := by rfl
example : pathDirname "/srv/app/workspace/a.txt" = "/srv/app/workspace" := by decide
example : pathDirname "a.txt" = "." := by decide
example : jsonParse "hello" = none := by rfl
example : (Json.obj [("a", Json.str "x"), ("a", Json.str "y")]).field "a" =
    Json.str "y" := by rfl
example : tryParseJSONBlock "hello" = none := by rfl
example : tokenizeLines "a\n" = ["a\n"] := by decide
example : createPatch "a.txt" "a\n" "b\n" =
    "Index: a.txt\n" ++ equalsBar ++ "\n--- a.txt\t\n+++ a.txt\t\n@@ -1,1 +1,1 @@\n-a\n+b\n" := by rfl
example : splitDiffIntoHunks (createPatch "a.txt" "a\n" "b\n") =
    [⟨"@@ 1,1 1,1 @@", "@@ 1,1 1,1 @@\n-a\n+b\n"⟩] := by rfl
example : applySelectedHunks "a\n" (createPatch "a.txt" "a\n" "b\n")
    ((splitDiffIntoHunks (createPatch "a.txt" "a\n" "b\n")).map HunkSplit.hunkText) =
    Except.error "applyPatch returned false" := by rfl
example : applySelectedHunks "" "" ["@@ 1,1 1,1 @@\n-x\n+y"] =
    Except.error "applyPatch returned false" := by rfl
example : applyPatch "a\n" "--- a.txt\n+++ a.txt\n@@ -1,1 +1,1 @@\n-a\n+b\n" =
    Except.ok (some "b\n") := by rfl
example :
    (applyHandler "/w" ⟨[], []⟩
      [Json.obj [("action", Json.str "create"), ("path", Json.str "a.txt"),
        ("content", Json.str "x")],
       Json.obj [("action", Json.str "delete"), ("path", Json.str "missing.txt")]]
      ⟨true, none⟩).2.changedFiles = [("a.txt", "x")] := by rfl
example :
    (applyHandler "/w" ⟨[], []⟩
      [Json.obj [("action", Json.str "create"), ("path", Json.str "a.txt"),
        ("content", Json.str "x")],
       Json.obj [("action", Json.str "delete"), ("path", Json.str "a.txt")]]
      ⟨true, none⟩).2.changedFiles =
    [("a.txt", "<<failed to read: ENOENT: no such file or directory>>")] := by rfl
example :
    (applyOne "/w" ⟨[("/w/a.txt", "hello")], ["/w"]⟩
      (Json.obj [("action", Json.str "edit"), ("path", Json.str "a.txt")])).1.files =
    [("/w/a.txt", "")] := by rfl
example :
    (applyOne "/w" ⟨[("/w/a.txt", "hello")], ["/w"]⟩
      (Json.obj [("action", Json.str "edit"), ("path", Json.str "a.txt"),
        ("selectedHunks", Json.arr [Json.str "@@ 1,1 1,1 @@\n-x\n+y"])])) =
    (⟨[("/w/a.txt", "hello")], ["/w"]⟩,
      Outcome.err (Json.obj [("action", Json.str "edit"), ("path", Json.str "a.txt"),
        ("selectedHunks", Json.arr [Json.str "@@ 1,1 1,1 @@\n-x\n+y"])])
        "applyPatch returned false", []) := by rfl
example :
    assistantRespond "/w" ⟨[], []⟩ "hello" true none =
    Except.ok ⟨Json.str "hello", "hello", Json.arr [], []⟩ := by rfl
end SanityChecks
